import Mathlib

/-!
Verification development for the gold-portfolio tracker.

Shallow embedding of the portfolio analytics and price-ingestion engine:
the Valuation Engine of `PortfolioSummary.tsx` (the CAGR-bearing version,
whose `calculateStats` the claims cite), the Metrics Backfill Engine of the
`PortfolioMetricsUpdater` component, the price widget `GoldPriceWidget.tsx`
(credential rotation, markup breakdown, history insertion), the scheduled
edge function `fetch-daily-gold-price/index.ts`, and the SQL function
`get_yesterday_last_price` of migration `20250809044558`.

Numbers are modelled as exact rationals (`ℚ`); timestamps as integer
microseconds since the Unix epoch (`ℤ`), matching the microsecond
resolution of the stored `created_at` columns; calendar dates as integer
day numbers.  The JavaScript `NaN` sentinel used for an unavailable CAGR is
modelled as `Option.none`.  `Math.pow` is kept abstract as a function
parameter `pw`, since the claims about the annualized return are about
which arguments reach the power function and when the sentinel is produced.
-/

namespace GoldAdvisor

/-- A row of `gold_purchases` as consumed by the engines: `purchase_date`
is a day number (the `DATE` column), `carat` an integer as stored. -/
structure Purchase where
  weight_grams : ℚ
  purchase_date : ℚ
  purchase_price_per_gram : ℚ
  carat : ℤ
  total_amount : ℚ
deriving DecidableEq

/-- Helper relating a `reduce`-style left fold of additions to a list sum. -/
theorem foldl_add_eq_sum {α : Type} (f : α → ℚ) (l : List α) (init : ℚ) :
    l.foldl (fun s a => s + f a) init = init + (l.map f).sum := by
  induction l generalizing init with
  | nil => simp
  | cons a l ih => simp only [List.foldl_cons, List.map_cons, List.sum_cons, ih]; ring

/-- `totalWeight`: `purchases.reduce((sum, p) => sum + p.weight_grams, 0)`. -/
def totalWeight (purchases : List Purchase) : ℚ :=
  purchases.foldl (fun sum p => sum + p.weight_grams) 0

/-- `totalInvestment`: `purchases.reduce((sum, p) => sum + p.total_amount, 0)`. -/
def totalInvestment (purchases : List Purchase) : ℚ :=
  purchases.foldl (fun sum p => sum + p.total_amount) 0

/-- `pureGoldWeight`: each purchase contributes `weight_grams * (carat / 24)`. -/
def pureGoldWeight (purchases : List Purchase) : ℚ :=
  purchases.foldl (fun sum p => sum + p.weight_grams * ((p.carat : ℚ) / 24)) 0

/-- `currentValue`: per-purchase purity-adjusted value
`sum + weight * price24K * purityFactor` with `purityFactor = carat / 24`. -/
def currentValue (purchases : List Purchase) (price24K : ℚ) : ℚ :=
  purchases.foldl (fun sum p => sum + p.weight_grams * price24K * ((p.carat : ℚ) / 24)) 0

theorem totalWeight_eq_sum (purchases : List Purchase) :
    totalWeight purchases = (purchases.map (fun p => p.weight_grams)).sum := by
  simp [totalWeight, foldl_add_eq_sum]

theorem totalInvestment_eq_sum (purchases : List Purchase) :
    totalInvestment purchases = (purchases.map (fun p => p.total_amount)).sum := by
  simp [totalInvestment, foldl_add_eq_sum]

theorem pureGoldWeight_eq_sum (purchases : List Purchase) :
    pureGoldWeight purchases
      = (purchases.map (fun p => p.weight_grams * ((p.carat : ℚ) / 24))).sum := by
  simp [pureGoldWeight, foldl_add_eq_sum]

theorem currentValue_eq_sum (purchases : List Purchase) (price24K : ℚ) :
    currentValue purchases price24K
      = (purchases.map (fun p => p.weight_grams * price24K * ((p.carat : ℚ) / 24))).sum := by
  simp [currentValue, foldl_add_eq_sum]

theorem currentValue_eq_price_mul_pure (purchases : List Purchase) (price24K : ℚ) :
    currentValue purchases price24K = price24K * pureGoldWeight purchases := by
  induction purchases with
  | nil => simp [currentValue, pureGoldWeight]
  | cons p l ih =>
    rw [currentValue_eq_sum] at ih ⊢
    rw [pureGoldWeight_eq_sum] at ih ⊢
    simp only [List.map_cons, List.sum_cons, ih]
    ring

/-- The `validDates.reduce` step that picks the earliest purchase: strict
comparison, keeping the earlier-listed purchase on ties. -/
def earliestPurchase (p0 : Purchase) (rest : List Purchase) : Purchase :=
  rest.foldl (fun m p => if p.purchase_date < m.purchase_date then p else m) p0

/-- `minCagrDays = 30`. -/
def minCagrDays : ℚ := 30

/-- The `365.25` days-per-year constant, exactly. -/
def daysPerYear : ℚ := 1461 / 4

/-- The CAGR computation of `calculateStats`, with `Math.pow` abstracted as
`pw`: `diffDays` is elapsed days from the earliest `purchase_date` to `now`,
and the value is `(pw (cv / ti) (1 / diffYears) - 1) * 100` when
`diffYears > 0 && diffDays >= 30 && ti > 0 && cv > 0`, the `NaN` sentinel
(`none`) otherwise. -/
def cagrCalc (pw : ℚ → ℚ → ℚ) (now : ℚ) (purchases : List Purchase)
    (ti cv : ℚ) : Option ℚ :=
  match purchases with
  | [] => none
  | p0 :: rest =>
    let diffDays := now - (earliestPurchase p0 rest).purchase_date
    let diffYears := diffDays / daysPerYear
    if 0 < diffYears ∧ minCagrDays ≤ diffDays ∧ 0 < ti ∧ 0 < cv then
      some ((pw (cv / ti) (1 / diffYears) - 1) * 100)
    else none

/-- The derived `PortfolioStats` record; `cagr = none` models the `NaN`
sentinel rendered as the string N/A. -/
structure PortfolioStats where
  totalWeight : ℚ
  totalInvestment : ℚ
  currentValue : ℚ
  totalGain : ℚ
  gainPercentage : ℚ
  averagePurchasePrice : ℚ
  averagePurePurchasePrice : ℚ
  cagr : Option ℚ
  purchaseCount : ℕ
deriving DecidableEq

/-- The `newStats` computation of `calculateStats` before the rounding
step: the empty purchase set yields the all-zero record with the `NaN`
CAGR sentinel, otherwise the per-purchase aggregates above. -/
def calcNewStats (pw : ℚ → ℚ → ℚ) (now : ℚ) (price24K : ℚ)
    (purchases : List Purchase) : PortfolioStats :=
  match purchases with
  | [] =>
    { totalWeight := 0, totalInvestment := 0, currentValue := 0, totalGain := 0
      gainPercentage := 0, averagePurchasePrice := 0, averagePurePurchasePrice := 0
      cagr := none, purchaseCount := 0 }
  | p0 :: rest =>
    let ps := p0 :: rest
    let tw := totalWeight ps
    let ti := totalInvestment ps
    let pgw := pureGoldWeight ps
    let cv := currentValue ps price24K
    let tg := cv - ti
    { totalWeight := tw
      totalInvestment := ti
      currentValue := cv
      totalGain := tg
      gainPercentage := if 0 < ti then tg / ti * 100 else 0
      averagePurchasePrice := if 0 < tw then ti / tw else 0
      averagePurePurchasePrice := if 0 < pgw then ti / pgw else 0
      cagr := cagrCalc pw now ps ti cv
      purchaseCount := ps.length }

/-- `safeRound`: `Number(val.toFixed(digits))` for a finite value, i.e.
rounding to `digits` decimal places (half away from zero agrees with the
half-up rounding of `round` on the values concerned; the claims only use
the bound `|safeRound d x - x| <= 1 / (2 * 10 ^ d)`). -/
def safeRound (digits : ℕ) (val : ℚ) : ℚ :=
  (round (val * 10 ^ digits) : ℤ) / 10 ^ digits

/-- The per-field rounding step building `roundedStats`; the `cagr` field
is only rounded when finite (`Number.isFinite` guard), which `Option.map`
captures. -/
def roundStats (s : PortfolioStats) : PortfolioStats :=
  { totalWeight := safeRound 6 s.totalWeight
    totalInvestment := safeRound 2 s.totalInvestment
    currentValue := safeRound 2 s.currentValue
    totalGain := safeRound 2 s.totalGain
    gainPercentage := safeRound 2 s.gainPercentage
    averagePurchasePrice := safeRound 4 s.averagePurchasePrice
    averagePurePurchasePrice := safeRound 4 s.averagePurePurchasePrice
    cagr := s.cagr.map (safeRound 2)
    purchaseCount := s.purchaseCount }

/-- The Valuation Engine entry point `calculateStats(price24K)` without its
concurrency guard: a non-positive price is rejected before any computation
(`none`), otherwise the rounded stats are produced. -/
def calculateStats (pw : ℚ → ℚ → ℚ) (now : ℚ) (price24K : ℚ)
    (purchases : List Purchase) : Option PortfolioStats :=
  if price24K ≤ 0 then none
  else some (roundStats (calcNewStats pw now price24K purchases))

theorem calcNewStats_currentValue (pw : ℚ → ℚ → ℚ) (now price : ℚ)
    (p0 : Purchase) (rest : List Purchase) :
    (calcNewStats pw now price (p0 :: rest)).currentValue
      = currentValue (p0 :: rest) price := rfl

theorem calcNewStats_totalInvestment (pw : ℚ → ℚ → ℚ) (now price : ℚ)
    (p0 : Purchase) (rest : List Purchase) :
    (calcNewStats pw now price (p0 :: rest)).totalInvestment
      = totalInvestment (p0 :: rest) := rfl

theorem calcNewStats_cagr (pw : ℚ → ℚ → ℚ) (now price : ℚ)
    (p0 : Purchase) (rest : List Purchase) :
    (calcNewStats pw now price (p0 :: rest)).cagr
      = cagrCalc pw now (p0 :: rest) (totalInvestment (p0 :: rest))
          (currentValue (p0 :: rest) price) := rfl

theorem pureGoldWeight_lt_totalWeight (ps : List Purchase)
    (hw : ∀ p ∈ ps, 0 < p.weight_grams) (hc : ∀ p ∈ ps, p.carat ≤ 24)
    (hx : ∃ p ∈ ps, p.carat ≠ 24) :
    pureGoldWeight ps < totalWeight ps := by
  rw [pureGoldWeight_eq_sum, totalWeight_eq_sum]
  refine List.sum_lt_sum _ _ ?_ ?_
  · intro p hp
    have h1 : (p.carat : ℚ) ≤ 24 := by exact_mod_cast hc p hp
    have h2 := hw p hp
    have h3 : (p.carat : ℚ) / 24 ≤ 1 := (div_le_one (by norm_num : (0:ℚ) < 24)).2 h1
    nlinarith
  · obtain ⟨p, hp, hne⟩ := hx
    refine ⟨p, hp, ?_⟩
    have h1 : (p.carat : ℚ) < 24 := by
      have hle : (p.carat : ℚ) ≤ 24 := by exact_mod_cast hc p hp
      have : (p.carat : ℚ) ≠ 24 := by exact_mod_cast hne
      exact lt_of_le_of_ne hle this
    have h2 := hw p hp
    nlinarith

/-- Claim C1: for every non-empty purchase list and positive 24K price, the
Valuation Engine's `currentValue` is the per-purchase purity-adjusted sum
`Σ weight_grams * price * (carat / 24)`; a carat-22 purchase contributes
exactly `22 / 24` of an otherwise-identical carat-24 purchase; and a
mixed-purity portfolio (some carat different from 24, positive weights) is
not valued as the aggregate weight times the price. -/
theorem C1_purity_adjusted_valuation (pw : ℚ → ℚ → ℚ) (now price : ℚ)
    (p0 : Purchase) (rest : List Purchase) (hp : 0 < price)
    (hw : ∀ p ∈ p0 :: rest, 0 < p.weight_grams)
    (hc : ∀ p ∈ p0 :: rest, p.carat ≤ 24) :
    (calcNewStats pw now price (p0 :: rest)).currentValue
        = ((p0 :: rest).map (fun p => p.weight_grams * price * ((p.carat : ℚ) / 24))).sum
    ∧ (∀ q : Purchase,
        currentValue [{ q with carat := 22 }] price
          = 22 / 24 * currentValue [{ q with carat := 24 }] price)
    ∧ ((∃ p ∈ p0 :: rest, p.carat ≠ 24) →
        (calcNewStats pw now price (p0 :: rest)).currentValue
          ≠ totalWeight (p0 :: rest) * price) := by
  refine ⟨?_, ?_, ?_⟩
  · rw [calcNewStats_currentValue, currentValue_eq_sum]
  · intro q
    simp only [currentValue, List.foldl_cons, List.foldl_nil]
    push_cast
    ring
  · intro hx heq
    rw [calcNewStats_currentValue, currentValue_eq_price_mul_pure] at heq
    have hlt := pureGoldWeight_lt_totalWeight (p0 :: rest) hw hc hx
    have : price * pureGoldWeight (p0 :: rest) < price * totalWeight (p0 :: rest) :=
      (mul_lt_mul_left hp).2 hlt
    rw [heq] at this
    nlinarith

theorem C1_witness :
    (calcNewStats (fun a b => a * b) 0 100 [⟨1, 0, 100, 22, 100⟩]).currentValue
        = ([(⟨1, 0, 100, 22, 100⟩ : Purchase)].map
            (fun p => p.weight_grams * 100 * ((p.carat : ℚ) / 24))).sum
    ∧ currentValue [{ (⟨1, 0, 100, 22, 100⟩ : Purchase) with carat := 22 }] 100
        = 22 / 24 * currentValue [{ (⟨1, 0, 100, 22, 100⟩ : Purchase) with carat := 24 }] 100
    ∧ (calcNewStats (fun a b => a * b) 0 100 [⟨1, 0, 100, 22, 100⟩]).currentValue
        ≠ totalWeight [(⟨1, 0, 100, 22, 100⟩ : Purchase)] * 100 := by
  obtain ⟨h1, h2, h3⟩ := C1_purity_adjusted_valuation (fun a b => a * b) 0 100
    ⟨1, 0, 100, 22, 100⟩ [] (by norm_num) (by decide) (by decide)
  exact ⟨h1, h2 ⟨1, 0, 100, 22, 100⟩, h3 (by decide)⟩

theorem abs_safeRound_sub_le (d : ℕ) (x : ℚ) :
    |safeRound d x - x| ≤ 1 / (2 * 10 ^ d) := by
  have h10 : (0:ℚ) < 10 ^ d := by positivity
  have h := abs_sub_round (x * 10 ^ d)
  rw [abs_sub_comm] at h
  have key : safeRound d x - x = ((round (x * 10 ^ d) : ℚ) - x * 10 ^ d) / 10 ^ d := by
    field_simp [safeRound]
    ring
  rw [key, abs_div, abs_of_pos h10]
  calc |(round (x * 10 ^ d) : ℚ) - x * 10 ^ d| / 10 ^ d
      ≤ (1 / 2) / 10 ^ d := by gcongr
    _ = 1 / (2 * 10 ^ d) := by rw [div_div]

/-- Claim C2: for every purchase list and positive price, the engine output
is the rounded stats record; before rounding `totalGain` equals
`currentValue - totalInvestment` exactly; and after each field is rounded
independently to 2 decimal places the identity holds within `1 / 20 = 0.05`
currency units. -/
theorem C2_gain_invariant (pw : ℚ → ℚ → ℚ) (now price : ℚ)
    (purchases : List Purchase) (hp : 0 < price) :
    calculateStats pw now price purchases
        = some (roundStats (calcNewStats pw now price purchases))
    ∧ (calcNewStats pw now price purchases).totalGain
        = (calcNewStats pw now price purchases).currentValue
          - (calcNewStats pw now price purchases).totalInvestment
    ∧ |(roundStats (calcNewStats pw now price purchases)).currentValue
         - (roundStats (calcNewStats pw now price purchases)).totalInvestment
         - (roundStats (calcNewStats pw now price purchases)).totalGain| ≤ 1 / 20 := by
  have hpre : (calcNewStats pw now price purchases).totalGain
      = (calcNewStats pw now price purchases).currentValue
        - (calcNewStats pw now price purchases).totalInvestment := by
    cases purchases with
    | nil => simp [calcNewStats]
    | cons p0 rest => rfl
  refine ⟨?_, hpre, ?_⟩
  · simp [calculateStats, not_le.2 hp]
  · set s := calcNewStats pw now price purchases with hs
    have h1 := abs_safeRound_sub_le 2 s.currentValue
    have h2 := abs_safeRound_sub_le 2 s.totalInvestment
    have h3 := abs_safeRound_sub_le 2 s.totalGain
    have hb : (1 : ℚ) / (2 * 10 ^ 2) = 1 / 200 := by norm_num
    rw [hb] at h1 h2 h3
    show |safeRound 2 s.currentValue - safeRound 2 s.totalInvestment
            - safeRound 2 s.totalGain| ≤ 1 / 20
    have e : safeRound 2 s.currentValue - safeRound 2 s.totalInvestment
          - safeRound 2 s.totalGain
        = (safeRound 2 s.currentValue - s.currentValue)
          - (safeRound 2 s.totalInvestment - s.totalInvestment)
          - (safeRound 2 s.totalGain - s.totalGain) := by
      rw [hpre]; ring
    rw [e]
    have t1 := abs_sub (safeRound 2 s.currentValue - s.currentValue)
      (safeRound 2 s.totalInvestment - s.totalInvestment)
    have t2 := abs_sub ((safeRound 2 s.currentValue - s.currentValue)
      - (safeRound 2 s.totalInvestment - s.totalInvestment))
      (safeRound 2 s.totalGain - s.totalGain)
    linarith

theorem C2_witness :
    calculateStats (fun a b => a * b) 0 100 [⟨1, 0, 100, 22, 100⟩]
        = some (roundStats (calcNewStats (fun a b => a * b) 0 100 [⟨1, 0, 100, 22, 100⟩]))
    ∧ (calcNewStats (fun a b => a * b) 0 100 [⟨1, 0, 100, 22, 100⟩]).totalGain
        = (calcNewStats (fun a b => a * b) 0 100 [⟨1, 0, 100, 22, 100⟩]).currentValue
          - (calcNewStats (fun a b => a * b) 0 100 [⟨1, 0, 100, 22, 100⟩]).totalInvestment
    ∧ |(roundStats (calcNewStats (fun a b => a * b) 0 100 [⟨1, 0, 100, 22, 100⟩])).currentValue
         - (roundStats (calcNewStats (fun a b => a * b) 0 100 [⟨1, 0, 100, 22, 100⟩])).totalInvestment
         - (roundStats (calcNewStats (fun a b => a * b) 0 100 [⟨1, 0, 100, 22, 100⟩])).totalGain|
        ≤ 1 / 20 :=
  C2_gain_invariant (fun a b => a * b) 0 100 [⟨1, 0, 100, 22, 100⟩] (by norm_num)

/-- Claim C3: for a non-empty purchase list at a positive price, when the
elapsed days from the earliest `purchase_date` reach the 30-day floor and
both `totalInvestment` and `currentValue` are positive, the annualized
return is `(pw (cv / ti) (365.25 / elapsedDays) - 1) * 100` (a finite
value, `some _`); below the floor or with a non-positive input it is the
`NaN` sentinel `none`, which is distinct from `some 0`, so it is never
reported as a zero return. -/
theorem C3_annualized_return (pw : ℚ → ℚ → ℚ) (now price : ℚ)
    (p0 : Purchase) (rest : List Purchase) (hp : 0 < price) :
    (30 ≤ now - (earliestPurchase p0 rest).purchase_date →
       0 < totalInvestment (p0 :: rest) →
       0 < currentValue (p0 :: rest) price →
       (calcNewStats pw now price (p0 :: rest)).cagr
         = some ((pw (currentValue (p0 :: rest) price / totalInvestment (p0 :: rest))
             (daysPerYear / (now - (earliestPurchase p0 rest).purchase_date)) - 1) * 100))
    ∧ ((now - (earliestPurchase p0 rest).purchase_date < 30
          ∨ totalInvestment (p0 :: rest) ≤ 0
          ∨ currentValue (p0 :: rest) price ≤ 0) →
       (calcNewStats pw now price (p0 :: rest)).cagr = none) := by
  have hdy : (0 : ℚ) < daysPerYear := by norm_num [daysPerYear]
  constructor
  · intro hd hti hcv
    rw [calcNewStats_cagr]
    have hdpos : 0 < now - (earliestPurchase p0 rest).purchase_date := by linarith
    rw [cagrCalc, if_pos]
    · rw [one_div_div]
    · exact ⟨div_pos hdpos hdy, by simpa [minCagrDays] using hd, hti, hcv⟩
  · intro hfail
    rw [calcNewStats_cagr, cagrCalc, if_neg]
    rintro ⟨hdy', hd, hti, hcv⟩
    rcases hfail with h | h | h
    · exact absurd hd (by simp only [minCagrDays]; linarith)
    · exact absurd hti (by linarith)
    · exact absurd hcv (by linarith)

theorem C3_witness :
    (30 ≤ (100 : ℚ) - (earliestPurchase (⟨1, 0, 100, 22, 100⟩ : Purchase) []).purchase_date →
       0 < totalInvestment [(⟨1, 0, 100, 22, 100⟩ : Purchase)] →
       0 < currentValue [(⟨1, 0, 100, 22, 100⟩ : Purchase)] 200 →
       (calcNewStats (fun a b => a * b) 100 200 [⟨1, 0, 100, 22, 100⟩]).cagr
         = some (((currentValue [(⟨1, 0, 100, 22, 100⟩ : Purchase)] 200
               / totalInvestment [(⟨1, 0, 100, 22, 100⟩ : Purchase)])
             * (daysPerYear / ((100 : ℚ)
               - (earliestPurchase (⟨1, 0, 100, 22, 100⟩ : Purchase) []).purchase_date)) - 1) * 100))
    ∧ (((100 : ℚ) - (earliestPurchase (⟨1, 0, 100, 22, 100⟩ : Purchase) []).purchase_date < 30
          ∨ totalInvestment [(⟨1, 0, 100, 22, 100⟩ : Purchase)] ≤ 0
          ∨ currentValue [(⟨1, 0, 100, 22, 100⟩ : Purchase)] 200 ≤ 0) →
       (calcNewStats (fun a b => a * b) 100 200 [⟨1, 0, 100, 22, 100⟩]).cagr = none) :=
  C3_annualized_return (fun a b => a * b) 100 200 ⟨1, 0, 100, 22, 100⟩ [] (by norm_num)

/-- A row of `gold_price_history` as read by the Metrics Backfill Engine:
`created_day` is the date part of `created_at` (the `split('T')[0]` key). -/
structure PriceRow where
  price_inr_per_gram : ℚ
  created_day : ℚ
deriving DecidableEq

/-- The purchases accumulated into a given day's metrics entry by
`updatePortfolioMetrics`: a purchase contributes to every day from its own
`purchase_date` through today, so the day's entry holds exactly the
purchases with `purchase_date <= day`. -/
def activeOn (purchases : List Purchase) (day : ℚ) : List Purchase :=
  purchases.filter (fun p => decide (p.purchase_date ≤ day))

/-- The day's accumulated `investment += Number(purchase.total_amount)`. -/
def backfillInvestment (purchases : List Purchase) (day : ℚ) : ℚ :=
  ((activeOn purchases day).map (fun p => p.total_amount)).sum

/-- The day's accumulated `totalWeight += Number(purchase.weight_grams)`. -/
def backfillWeight (purchases : List Purchase) (day : ℚ) : ℚ :=
  ((activeOn purchases day).map (fun p => p.weight_grams)).sum

/-- The day's resolved price: the last history row dated on or before the
day (the history is ordered ascending by `created_at`), else the static
fallback `7200`. -/
def resolveDayPrice (priceHistory : List PriceRow) (day : ℚ) : ℚ :=
  match (priceHistory.filter (fun r => decide (r.created_day ≤ day))).getLast? with
  | some r => r.price_inr_per_gram
  | none => 7200

/-- The day's `current_value` as `updatePortfolioMetrics` computes it:
`metrics.totalWeight * closestPrice`. -/
def backfillCurrentValue (purchases : List Purchase) (day resolvedPrice : ℚ) : ℚ :=
  backfillWeight purchases day * resolvedPrice

/-- Claim C4 counterexample: for a single active carat-22 purchase of one
gram at a resolved price of 100, the backfill day value (aggregate weight
times price, `100`) differs from the Valuation Engine's purity-adjusted
per-purchase value (`275 / 3`), refuting the claim that the Metrics
Backfill Engine values each day the same purity-adjusted way. -/
theorem C4_counterexample :
    backfillCurrentValue [⟨1, 0, 100, 22, 100⟩] 0 100
      ≠ currentValue (activeOn [⟨1, 0, 100, 22, 100⟩] 0) 100 := by
  simp only [backfillCurrentValue, backfillWeight, activeOn, currentValue,
    List.filter_cons, List.filter_nil, List.map_cons, List.map_nil, List.sum_cons,
    List.sum_nil, List.foldl_cons, List.foldl_nil]
  norm_num

theorem pureGoldWeight_of_all24 (ps : List Purchase)
    (h : ∀ p ∈ ps, p.carat = 24) : pureGoldWeight ps = totalWeight ps := by
  rw [pureGoldWeight_eq_sum, totalWeight_eq_sum]
  refine congrArg List.sum (List.map_congr_left ?_)
  intro p hp
  rw [h p hp]
  norm_num

/-- Claim C4 amended: each backfilled day's `current_value` is the
aggregate accumulated weight of the purchases active on that day
multiplied by the day's resolved price, with no purity adjustment; it
agrees with the Valuation Engine's purity-adjusted per-purchase value only
when every active purchase is 24 carat. -/
theorem C4_backfill_aggregate_value (purchases : List Purchase)
    (day resolvedPrice : ℚ) :
    backfillCurrentValue purchases day resolvedPrice
        = totalWeight (activeOn purchases day) * resolvedPrice
    ∧ ((∀ p ∈ activeOn purchases day, p.carat = 24) →
        backfillCurrentValue purchases day resolvedPrice
          = currentValue (activeOn purchases day) resolvedPrice) := by
  have hbw : backfillCurrentValue purchases day resolvedPrice
      = totalWeight (activeOn purchases day) * resolvedPrice := by
    rw [backfillCurrentValue, backfillWeight, totalWeight_eq_sum]
  refine ⟨hbw, fun h24 => ?_⟩
  rw [hbw, currentValue_eq_price_mul_pure, pureGoldWeight_of_all24 _ h24, mul_comm]

theorem C4_witness :
    backfillCurrentValue [⟨2, 0, 50, 24, 100⟩] 0 10
        = totalWeight (activeOn [⟨2, 0, 50, 24, 100⟩] 0) * 10
    ∧ backfillCurrentValue [⟨2, 0, 50, 24, 100⟩] 0 10
        = currentValue (activeOn [⟨2, 0, 50, 24, 100⟩] 0) 10 := by
  obtain ⟨h1, h2⟩ := C4_backfill_aggregate_value [⟨2, 0, 50, 24, 100⟩] 0 10
  exact ⟨h1, h2 (by decide)⟩

/-- Microseconds per calendar day. -/
def usecPerDay : ℤ := 86400000000

/-- The IST (UTC+5:30) offset, `5 * 3600 + 30 * 60` seconds, in
microseconds. -/
def istOffsetUsec : ℤ := 19800000000

/-- The IST calendar day number of a UTC timestamp (microseconds since the
epoch), as `(now() AT TIME ZONE 'Asia/Kolkata')::date` computes it. -/
def istDate (t : ℤ) : ℤ := (t + istOffsetUsec) / usecPerDay

/-- The UTC instant of IST midnight of IST day `d`: IST midnight is 18:30
UTC of the previous day, i.e. `d * usecPerDay - istOffsetUsec`. -/
def istStartOfDayUtc (d : ℤ) : ℤ := d * usecPerDay - istOffsetUsec

/-- A `gold_price_history` row as the SQL function reads it: the price and
the `created_at` timestamp in UTC microseconds. -/
structure Obs where
  price_inr_per_gram : ℚ
  created_at : ℤ
deriving DecidableEq

/-- One step of scanning for the latest row satisfying `pred`: keep the
candidate with the greatest `created_at`, preferring the earlier-scanned
row on ties. -/
def lastStep (pred : Obs → Prop) [DecidablePred pred] (acc : Option Obs)
    (o : Obs) : Option Obs :=
  if pred o then
    match acc with
    | none => some o
    | some b => if b.created_at < o.created_at then some o else some b
  else acc

/-- `ORDER BY created_at DESC LIMIT 1` over the rows satisfying `pred`. -/
def lastSuchThat (pred : Obs → Prop) [DecidablePred pred]
    (hist : List Obs) : Option Obs :=
  hist.foldl (lastStep pred) none

/-- The rows selected by `get_yesterday_last_price`: the window
`created_at >= lo AND created_at <= hi`, latest first. -/
def lastInWindow (lo hi : ℤ) (hist : List Obs) : Option Obs :=
  lastSuchThat (fun o => lo ≤ o.created_at ∧ o.created_at ≤ hi) hist

/-- `get_yesterday_last_price` of migration `20250809044558`: yesterday in
IST spans `[yesterday 00:00 IST, yesterday 23:59:59.999999 IST]`; with
microsecond timestamps the upper bound is one microsecond before the
current IST day's midnight. -/
def get_yesterday_last_price (nowT : ℤ) (hist : List Obs) : Option ℚ :=
  (lastInWindow (istStartOfDayUtc (istDate nowT - 1))
      (istStartOfDayUtc (istDate nowT) - 1) hist).map
    (fun o => o.price_inr_per_gram)

/-- Modelled from the spec: the `latestAsOfDate` semantics of section 4.2
applied to yesterday — the most recent observation with timestamp strictly
before the start of the current IST calendar day, with no lower bound.
Kept side by side with `get_yesterday_last_price` for comparison. -/
def latestBeforeTodaySpec (nowT : ℤ) (hist : List Obs) : Option ℚ :=
  (lastSuchThat (fun o => o.created_at < istStartOfDayUtc (istDate nowT))
      hist).map (fun o => o.price_inr_per_gram)

theorem lastStep_foldl_spec (pred : Obs → Prop) [DecidablePred pred] :
    ∀ (hist : List Obs) (acc : Option Obs) (r : Obs),
      (∀ b, acc = some b → pred b) →
      hist.foldl (lastStep pred) acc = some r →
      pred r ∧ (r ∈ hist ∨ acc = some r)
        ∧ (∀ o ∈ hist, pred o → o.created_at ≤ r.created_at)
        ∧ (∀ b, acc = some b → b.created_at ≤ r.created_at) := by
  intro hist
  induction hist with
  | nil =>
    intro acc r hacc hf
    simp only [List.foldl_nil] at hf
    refine ⟨hacc r hf, Or.inr hf, by simp, fun b hb => ?_⟩
    rw [hf] at hb
    cases hb
    exact le_refl _
  | cons o hist ih =>
    intro acc r hacc hf
    simp only [List.foldl_cons] at hf
    have hacc' : ∀ b, lastStep pred acc o = some b → pred b := by
      intro b hb
      by_cases hpo : pred o
      · cases acc with
        | none =>
          simp only [lastStep, if_pos hpo] at hb
          cases hb
          exact hpo
        | some c =>
          simp only [lastStep, if_pos hpo] at hb
          by_cases hlt : c.created_at < o.created_at
          · rw [if_pos hlt] at hb
            cases hb
            exact hpo
          · rw [if_neg hlt] at hb
            exact hacc b hb
      · simp only [lastStep, if_neg hpo] at hb
        exact hacc b hb
    obtain ⟨hpr, hmem, hmax, haccle⟩ := ih (lastStep pred acc o) r hacc' hf
    refine ⟨hpr, ?_, ?_, ?_⟩
    · rcases hmem with h | h
      · exact Or.inl (List.mem_cons_of_mem _ h)
      · by_cases hpo : pred o
        · cases acc with
          | none =>
            simp only [lastStep, if_pos hpo] at h
            cases h
            exact Or.inl (List.mem_cons_self _ _)
          | some c =>
            simp only [lastStep, if_pos hpo] at h
            by_cases hlt : c.created_at < o.created_at
            · rw [if_pos hlt] at h
              cases h
              exact Or.inl (List.mem_cons_self _ _)
            · rw [if_neg hlt] at h
              exact Or.inr h
        · simp only [lastStep, if_neg hpo] at h
          exact Or.inr h
    · intro o2 ho2 hpo2
      rcases List.mem_cons.1 ho2 with h | h
      · subst h
        cases acc with
        | none =>
          exact haccle o2 (by simp [lastStep, if_pos hpo2])
        | some c =>
          by_cases hlt : c.created_at < o2.created_at
          · exact haccle o2 (by simp [lastStep, if_pos hpo2, if_pos hlt])
          · have hcb := haccle c (by simp [lastStep, if_pos hpo2, if_neg hlt])
            exact le_trans (le_of_not_lt hlt) hcb
      · exact hmax o2 h hpo2
    · intro b hb
      subst hb
      by_cases hpo : pred o
      · by_cases hlt : b.created_at < o.created_at
        · have := haccle o (by simp [lastStep, if_pos hpo, if_pos hlt])
          exact le_trans (le_of_lt hlt) this
        · exact haccle b (by simp [lastStep, if_pos hpo, if_neg hlt])
      · exact haccle b (by simp [lastStep, if_neg hpo])

theorem lastStep_foldl_some (pred : Obs → Prop) [DecidablePred pred] :
    ∀ (hist : List Obs) (b : Obs),
      ∃ r, hist.foldl (lastStep pred) (some b) = some r := by
  intro hist
  induction hist with
  | nil => exact fun b => ⟨b, rfl⟩
  | cons o hist ih =>
    intro b
    simp only [List.foldl_cons]
    by_cases hpo : pred o
    · by_cases hlt : b.created_at < o.created_at
      · simpa [lastStep, if_pos hpo, if_pos hlt] using ih o
      · simpa [lastStep, if_pos hpo, if_neg hlt] using ih b
    · simpa [lastStep, if_neg hpo] using ih b

theorem lastSuchThat_eq_none_iff (pred : Obs → Prop) [DecidablePred pred]
    (hist : List Obs) :
    lastSuchThat pred hist = none ↔ ∀ o ∈ hist, ¬ pred o := by
  induction hist with
  | nil => simp [lastSuchThat]
  | cons o hist ih =>
    by_cases hpo : pred o
    · simp only [lastSuchThat, List.foldl_cons, lastStep, if_pos hpo]
      obtain ⟨r, hr⟩ := lastStep_foldl_some pred hist o
      simp only [hr]
      simp [hpo]
    · simp only [lastSuchThat, List.foldl_cons, lastStep, if_neg hpo] at *
      rw [ih]
      simp [hpo]

theorem lastSuchThat_spec (pred : Obs → Prop) [DecidablePred pred]
    (hist : List Obs) (r : Obs) (h : lastSuchThat pred hist = some r) :
    pred r ∧ r ∈ hist
      ∧ ∀ o ∈ hist, pred o → o.created_at ≤ r.created_at := by
  obtain ⟨hpr, hmem, hmax, _⟩ :=
    lastStep_foldl_spec pred hist none r (by simp) h
  rcases hmem with h2 | h2
  · exact ⟨hpr, h2, hmax⟩
  · cases h2

/-- Claim C5 counterexample: with the price history holding only the
2025-03-01T14:00+05:30 observation and now simulated as
2025-07-15T09:00+05:30, the deployed lookup returns `none` (its window is
restricted to yesterday's IST day), while the claimed behaviour — the most
recent observation strictly before the start of the current IST day, `none`
only if no such observation exists — would return that observation. -/
theorem C5_counterexample :
    get_yesterday_last_price 1752550200000000 [⟨8662, 1740817800000000⟩] = none
    ∧ latestBeforeTodaySpec 1752550200000000 [⟨8662, 1740817800000000⟩]
        = some 8662 :=
  ⟨by decide, by decide⟩

/-- Claim C5 amended: the lookup returns the most recent observation whose
timestamp lies within yesterday's IST calendar day
`[start of yesterday IST, start of today IST)`, and returns `none` exactly
when no observation occurred during that day — even if older observations
exist; on the spec's concrete example (observations at
2025-03-01T14:00+05:30 and 2025-07-14T14:00+05:30, now
2025-07-15T09:00+05:30) it returns the 2025-07-14 observation. -/
theorem C5_yesterday_window (nowT : ℤ) (hist : List Obs) :
    (get_yesterday_last_price nowT hist = none
       ↔ ∀ o ∈ hist, ¬(istStartOfDayUtc (istDate nowT - 1) ≤ o.created_at
             ∧ o.created_at ≤ istStartOfDayUtc (istDate nowT) - 1))
    ∧ (∀ r : Obs,
        lastInWindow (istStartOfDayUtc (istDate nowT - 1))
            (istStartOfDayUtc (istDate nowT) - 1) hist = some r →
          r ∈ hist
          ∧ istStartOfDayUtc (istDate nowT - 1) ≤ r.created_at
          ∧ r.created_at ≤ istStartOfDayUtc (istDate nowT) - 1
          ∧ get_yesterday_last_price nowT hist = some r.price_inr_per_gram
          ∧ ∀ o ∈ hist, istStartOfDayUtc (istDate nowT - 1) ≤ o.created_at →
              o.created_at ≤ istStartOfDayUtc (istDate nowT) - 1 →
              o.created_at ≤ r.created_at)
    ∧ get_yesterday_last_price 1752550200000000
        [⟨8662, 1740817800000000⟩, ⟨9988, 1752481800000000⟩] = some 9988 := by
  refine ⟨?_, ?_, by decide⟩
  · rw [get_yesterday_last_price, Option.map_eq_none']
    simp only [lastInWindow]
    rw [lastSuchThat_eq_none_iff]
  · intro r hr
    obtain ⟨hpr, hmem, hmax⟩ := lastSuchThat_spec _ hist r hr
    refine ⟨hmem, hpr.1, hpr.2, ?_, fun o ho h1 h2 => hmax o ho ⟨h1, h2⟩⟩
    rw [get_yesterday_last_price, hr, Option.map_some']

theorem C5_witness :
    (⟨9988, 1752481800000000⟩ : Obs)
        ∈ ([⟨8662, 1740817800000000⟩, ⟨9988, 1752481800000000⟩] : List Obs)
    ∧ istStartOfDayUtc (istDate 1752550200000000 - 1) ≤ (1752481800000000 : ℤ)
    ∧ (1752481800000000 : ℤ) ≤ istStartOfDayUtc (istDate 1752550200000000) - 1
    ∧ get_yesterday_last_price 1752550200000000
        [⟨8662, 1740817800000000⟩, ⟨9988, 1752481800000000⟩] = some 9988
    ∧ ∀ o ∈ ([⟨8662, 1740817800000000⟩, ⟨9988, 1752481800000000⟩] : List Obs),
        istStartOfDayUtc (istDate 1752550200000000 - 1) ≤ o.created_at →
        o.created_at ≤ istStartOfDayUtc (istDate 1752550200000000) - 1 →
        o.created_at ≤ (1752481800000000 : ℤ) :=
  (C5_yesterday_window 1752550200000000
      [⟨8662, 1740817800000000⟩, ⟨9988, 1752481800000000⟩]).2.1
    ⟨9988, 1752481800000000⟩ (by decide)

/-- The UTC calendar day number of a microsecond timestamp, as the edge
function's `new Date().toISOString().split('T')[0]` computes it. -/
def utcDay (t : ℤ) : ℤ := t / usecPerDay

/-- UTC midnight of the day containing `t`, in microseconds. -/
def utcDayStart (t : ℤ) : ℤ := utcDay t * usecPerDay

/-- A `gold_price_history` row with its `source` tag. -/
structure HistRow where
  price_inr_per_gram : ℚ
  price_inr_per_gram_22k : Option ℚ
  created_at : ℤ
  source : String
deriving DecidableEq

/-- The daily fetch duplicate check's window,
`created_at >= todayT00:00:00 AND created_at < todayT23:59:59`: the upper
bound is second 86399 of the day, so the final second is excluded. -/
def inTodayCheckWindow (nowT t : ℤ) : Prop :=
  utcDayStart nowT ≤ t ∧ t < utcDayStart nowT + 86399000000

instance (nowT t : ℤ) : Decidable (inTodayCheckWindow nowT t) := by
  unfold inTodayCheckWindow; infer_instance

/-- Number of rows visible to the duplicate check; the `.single()` call
reports an existing entry exactly when this is `1`. -/
def todayCheckCount (nowT : ℤ) (hist : List HistRow) : ℕ :=
  (hist.filter (fun o => decide (inTodayCheckWindow nowT o.created_at))).length

inductive DailyFetchResult
  | alreadyRecorded
  | stored
deriving DecidableEq

/-- The scheduled `fetch-daily-gold-price` handler after a successful price
fetch: when `.single()` finds an existing entry for today it skips the
insert and responds already-recorded (a success response), otherwise it
inserts the fetched prices rounded to two decimals with source
`scheduled-api`. -/
def dailyFetchHandler (nowT : ℤ) (p24 p22 : ℚ) (hist : List HistRow) :
    List HistRow × DailyFetchResult :=
  if todayCheckCount nowT hist = 1 then (hist, .alreadyRecorded)
  else (hist ++ [⟨safeRound 2 p24, some (safeRound 2 p22), nowT, "scheduled-api"⟩],
        .stored)

/-- Claim C6 failing input evaluated: two invocations on UTC day 0, the
first at 23:59:59.200 and the second at 23:59:59.800, from an empty
history. The duplicate check's window stops at 23:59:59, so the second
call does not see the first insert: it inserts again and reports `stored`,
leaving two observations for one calendar day, where the claim (and the
function's own stated intent) requires one insert and an already-recorded
report. -/
theorem C6_last_second_hole :
    utcDay 86399200000 = utcDay 86399800000
    ∧ (dailyFetchHandler 86399200000 9000 8250 []).2 = .stored
    ∧ (dailyFetchHandler 86399800000 9100 8350
        (dailyFetchHandler 86399200000 9000 8250 []).1).2 = .stored
    ∧ (dailyFetchHandler 86399800000 9100 8350
        (dailyFetchHandler 86399200000 9000 8250 []).1).1.length = 2 := by
  exact ⟨by decide, by decide, by decide, by decide⟩

/-- The predicate counted by the section-3 invariant: a non-manual
observation on UTC day `d`. -/
def nmPred (d : ℤ) (o : HistRow) : Prop :=
  o.source ≠ "manual" ∧ utcDay o.created_at = d

instance (d : ℤ) (o : HistRow) : Decidable (nmPred d o) := by
  unfold nmPred; infer_instance

/-- Count of non-manual observations on UTC day `d`. -/
def nonManualOnDay (d : ℤ) (hist : List HistRow) : ℕ :=
  (hist.filter (fun o => decide (nmPred d o))).length

/-- The data-model invariant: at most one non-manual observation per
calendar day. -/
def atMostOnePerDay (hist : List HistRow) : Prop :=
  ∀ d : ℤ, nonManualOnDay d hist ≤ 1

/-- The interactive widget's history write on a successful fetch: an
unconditional insert of the fetched prices with source
`GoldAPI INR endpoint` and no same-day check. -/
def widgetInsertOnSuccess (nowT : ℤ) (p24 p22 : ℚ) (hist : List HistRow) :
    List HistRow :=
  hist ++ [⟨p24, some p22, nowT, "GoldAPI INR endpoint"⟩]

theorem nonManualOnDay_append (d : ℤ) (hist : List HistRow) (row : HistRow) :
    nonManualOnDay d (hist ++ [row])
      = nonManualOnDay d hist + (if nmPred d row then 1 else 0) := by
  by_cases h : nmPred d row <;>
    simp [nonManualOnDay, List.filter_append, List.filter_cons, h]

/-- Claim C7 counterexample: from a history satisfying the invariant (one
`scheduled-api` observation at noon of UTC day 0), a successful widget
refresh later the same day appends a second non-manual observation for
that day, violating the at-most-one-per-day invariant the claim asserts
every price-writing operation preserves. -/
theorem C7_counterexample :
    atMostOnePerDay [⟨9000, some 8250, 43200000000, "scheduled-api"⟩]
    ∧ ¬ atMostOnePerDay (widgetInsertOnSuccess 50000000000 9100 8350
        [⟨9000, some 8250, 43200000000, "scheduled-api"⟩]) := by
  constructor
  · intro d
    exact le_trans (List.length_filter_le _ _) (by norm_num)
  · intro h
    have h0 := h 0
    have h2 : nonManualOnDay 0 (widgetInsertOnSuccess 50000000000 9100 8350
        [⟨9000, some 8250, 43200000000, "scheduled-api"⟩]) = 2 := by decide
    omega

theorem inTodayCheckWindow_day (nowT t : ℤ) (h : inTodayCheckWindow nowT t) :
    utcDay t = utcDay nowT := by
  rcases h with ⟨h1, h2⟩
  simp only [utcDayStart, utcDay, usecPerDay] at *
  omega

/-- Claim C7 amended: the interactive widget refresh does not preserve the
invariant — it appends a non-manual observation unconditionally on every
successful fetch, so whenever a non-manual observation for the current day
already exists the result violates at-most-one-per-day; the scheduled
daily fetch does preserve the invariant, provided every already-stored
observation of the current day is non-manual and lies inside its check
window `[00:00:00, 23:59:59)`. -/
theorem C7_per_day_invariant :
    (∀ (nowT : ℤ) (p24 p22 : ℚ) (hist : List HistRow),
      (widgetInsertOnSuccess nowT p24 p22 hist).length = hist.length + 1)
    ∧ (∀ (nowT : ℤ) (p24 p22 : ℚ) (hist : List HistRow),
        (∃ o ∈ hist, o.source ≠ "manual" ∧ utcDay o.created_at = utcDay nowT) →
        ¬ atMostOnePerDay (widgetInsertOnSuccess nowT p24 p22 hist))
    ∧ (∀ (nowT : ℤ) (p24 p22 : ℚ) (hist : List HistRow),
        atMostOnePerDay hist →
        (∀ o ∈ hist, utcDay o.created_at = utcDay nowT →
            o.source ≠ "manual" ∧ inTodayCheckWindow nowT o.created_at) →
        atMostOnePerDay (dailyFetchHandler nowT p24 p22 hist).1) := by
  refine ⟨?_, ?_, ?_⟩
  · intro nowT p24 p22 hist
    simp [widgetInsertOnSuccess]
  · rintro nowT p24 p22 hist ⟨o, ho, hs, hd⟩ h
    have hday := h (utcDay nowT)
    rw [widgetInsertOnSuccess, nonManualOnDay_append] at hday
    have hrow : nmPred (utcDay nowT)
        (⟨p24, some p22, nowT, "GoldAPI INR endpoint"⟩ : HistRow) := by
      constructor
      · simp
      · rfl
    rw [if_pos hrow] at hday
    have hpos : 0 < nonManualOnDay (utcDay nowT) hist := by
      refine List.length_pos.2 (List.ne_nil_of_mem (a := o) ?_)
      exact List.mem_filter.2 ⟨ho, by simp [nmPred, hs, hd]⟩
    omega
  · intro nowT p24 p22 hist hinv hday
    rw [dailyFetchHandler]
    by_cases hc : todayCheckCount nowT hist = 1
    · rw [if_pos hc]
      exact hinv
    · rw [if_neg hc]
      intro d
      rw [nonManualOnDay_append]
      by_cases hd : utcDay nowT = d
      · subst hd
        have hfeq : nonManualOnDay (utcDay nowT) hist = todayCheckCount nowT hist := by
          rw [nonManualOnDay, todayCheckCount]
          congr 1
          refine List.filter_congr ?_
          intro o ho
          simp only [decide_eq_decide]
          constructor
          · rintro ⟨h1, h2⟩
            exact (hday o ho h2).2
          · intro hw
            have hdd := inTodayCheckWindow_day nowT o.created_at hw
            exact ⟨(hday o ho hdd).1, hdd⟩
        have hle := hinv (utcDay nowT)
        have hz : nonManualOnDay (utcDay nowT) hist = 0 := by omega
        rw [hz]
        split <;> norm_num
      · have hrow : ¬ nmPred d
            (⟨safeRound 2 p24, some (safeRound 2 p22), nowT, "scheduled-api"⟩ : HistRow) := by
          rintro ⟨h1, h2⟩
          exact hd h2
        rw [if_neg hrow]
        simpa using hinv d

theorem C7_witness :
    (widgetInsertOnSuccess 50000000000 9100 8350
        [⟨9000, some 8250, 43200000000, "scheduled-api"⟩]).length
      = [(⟨9000, some 8250, 43200000000, "scheduled-api"⟩ : HistRow)].length + 1
    ∧ ¬ atMostOnePerDay (widgetInsertOnSuccess 50000000000 9100 8350
        [⟨9000, some 8250, 43200000000, "scheduled-api"⟩])
    ∧ atMostOnePerDay (dailyFetchHandler 43200000000 9000 8250 []).1 := by
  obtain ⟨h1, h2, h3⟩ := C7_per_day_invariant
  refine ⟨h1 50000000000 9100 8350 _, h2 50000000000 9100 8350 _ ?_,
    h3 43200000000 9000 8250 [] ?_ ?_⟩
  · exact ⟨⟨9000, some 8250, 43200000000, "scheduled-api"⟩, by decide⟩
  · intro d
    simp [nonManualOnDay]
  · simp

/-- The normalized price data a successful `tryApiKey` call returns. -/
structure GoldPriceData where
  priceInrPerGram24K : ℚ
  priceInrPerGram22K : ℚ
  source : String
deriving DecidableEq

/-- The key-rotation loop of the widget's `fetchGoldPrice`, with the
attempt counter fused into the current absolute index: attempt `i` of the
source loop uses key `(start + i) % n`, which this recursion reaches as
`cur % n` with `cur` starting at `start` and incrementing per failure.
`outcome k` abstracts the result of `tryApiKey k` (a thrown error is
`none`). On the first success the data and the succeeding key index are
returned; `none` once all `n` attempts fail. -/
def tryKeysAux (outcome : ℕ → Option GoldPriceData) (n : ℕ) :
    ℕ → ℕ → Option (GoldPriceData × ℕ)
  | _, 0 => none
  | cur, rem + 1 =>
    match outcome (cur % n) with
    | some d => some (d, cur % n)
    | none => tryKeysAux outcome n (cur + 1) rem

/-- One full rotation pass over the `n` keys starting from the persisted
`currentKeyIndex`. -/
def rotateKeys (outcome : ℕ → Option GoldPriceData) (n start : ℕ) :
    Option (GoldPriceData × ℕ) :=
  tryKeysAux outcome n start n

theorem tryKeysAux_step (outcome : ℕ → Option GoldPriceData)
    (n cur rem : ℕ) :
    tryKeysAux outcome n cur (rem + 1)
      = match outcome (cur % n) with
        | some d => some (d, cur % n)
        | none => tryKeysAux outcome n (cur + 1) rem := rfl

theorem tryKeysAux_first_success (outcome : ℕ → Option GoldPriceData)
    (n : ℕ) (d : GoldPriceData) :
    ∀ (rem cur : ℕ),
      (∀ j < rem, outcome ((cur + j) % n) = none) →
      outcome ((cur + rem) % n) = some d →
      tryKeysAux outcome n cur (rem + 1) = some (d, (cur + rem) % n) := by
  intro rem
  induction rem with
  | zero =>
    intro cur _ hs
    rw [Nat.add_zero] at hs
    simp [tryKeysAux, hs]
  | succ rem ih =>
    intro cur hf hs
    have h0 : outcome (cur % n) = none := by
      simpa using hf 0 (Nat.succ_pos rem)
    have hf' : ∀ j < rem, outcome ((cur + 1 + j) % n) = none := by
      intro j hj
      have h := hf (j + 1) (by omega)
      have e : cur + (j + 1) = cur + 1 + j := by omega
      rw [e] at h
      exact h
    have hs' : outcome ((cur + 1 + rem) % n) = some d := by
      have e : cur + (rem + 1) = cur + 1 + rem := by omega
      rw [e] at hs
      exact hs
    have hrec := ih (cur + 1) hf' hs'
    have e2 : cur + 1 + rem = cur + (rem + 1) := by omega
    rw [e2] at hrec
    rw [tryKeysAux_step, h0]
    exact hrec

/-- Claim C8: the widget price adapter attempts its `n` credentials in
rotation starting from the persisted last-known-good index `start`; in any
run where the first `n - 1` attempted keys fail and the `n`-th attempted
key succeeds, the fetch returns that key's data paired with that key's
index, which is what gets persisted as the starting index of the next
invocation. -/
theorem C8_credential_failover (outcome : ℕ → Option GoldPriceData)
    (n start : ℕ) (d : GoldPriceData) (hn : 0 < n)
    (hfail : ∀ i < n - 1, outcome ((start + i) % n) = none)
    (hsucc : outcome ((start + (n - 1)) % n) = some d) :
    rotateKeys outcome n start = some (d, (start + (n - 1)) % n) := by
  obtain ⟨m, rfl⟩ : ∃ m, n = m + 1 := ⟨n - 1, by omega⟩
  have hm : m + 1 - 1 = m := by omega
  rw [hm] at hfail hsucc ⊢
  exact tryKeysAux_first_success outcome (m + 1) d m start hfail hsucc

theorem C8_witness :
    rotateKeys (fun k => if k = 1 then some ⟨9000, 8250, "GoldAPI INR endpoint"⟩
        else none) 3 2
      = some (⟨9000, 8250, "GoldAPI INR endpoint"⟩, 1) :=
  C8_credential_failover
    (fun k => if k = 1 then some ⟨9000, 8250, "GoldAPI INR endpoint"⟩ else none)
    3 2 ⟨9000, 8250, "GoldAPI INR endpoint"⟩ (by norm_num) (by decide) (by decide)

/-- The component state the recomputation guard acts on: the
`calculationLock` ref and the stored stats (`prevStats` plus the persisted
copy). -/
structure CalcState where
  lock : Bool
  stored : Option PortfolioStats
deriving DecidableEq

/-- Outcome of one recomputation trigger: a skipped trigger simply
returns — there is no error value. -/
inductive CalcOutcome
  | skipped
  | completed (stats : PortfolioStats)
deriving DecidableEq

/-- One `calculateStats(price24K)` trigger: return immediately when the
price is non-positive or the lock is held; otherwise compute, store the
rounded stats, and release the lock (the `finally` block). -/
def calcTrigger (pw : ℚ → ℚ → ℚ) (now price24K : ℚ)
    (purchases : List Purchase) (s : CalcState) : CalcState × CalcOutcome :=
  if price24K ≤ 0 ∨ s.lock = true then (s, .skipped)
  else
    let st := roundStats (calcNewStats pw now price24K purchases)
    ({ lock := false, stored := some st }, .completed st)

/-- Claim C9: while a recomputation is in flight (lock held), a later
trigger returns immediately — the state, including the stored stats, is
unchanged and the outcome is the silent `skipped`, not an error; the
skipped path does not depend on the purchase set (nothing is fetched);
and a trigger entered with the lock free always leaves the lock released
when it finishes. -/
theorem C9_single_flight (pw : ℚ → ℚ → ℚ) (now price : ℚ)
    (ps : List Purchase) (s : CalcState) (hlock : s.lock = true) :
    calcTrigger pw now price ps s = (s, .skipped)
    ∧ (∀ ps2 : List Purchase,
        calcTrigger pw now price ps2 s = calcTrigger pw now price ps s)
    ∧ (∀ (s0 : CalcState) (ps0 : List Purchase), s0.lock = false →
        (calcTrigger pw now price ps0 s0).1.lock = false) := by
  refine ⟨?_, ?_, ?_⟩
  · simp [calcTrigger, hlock]
  · intro ps2
    simp [calcTrigger, hlock]
  · intro s0 ps0 hfree
    by_cases hp : price ≤ 0
    · simp [calcTrigger, hp, hfree]
    · simp [calcTrigger, hp, hfree]

theorem C9_witness :
    calcTrigger (fun a b => a * b) 0 10 [] ⟨true, none⟩
        = (⟨true, none⟩, CalcOutcome.skipped)
    ∧ calcTrigger (fun a b => a * b) 0 10 [⟨1, 0, 100, 22, 100⟩] ⟨true, none⟩
        = calcTrigger (fun a b => a * b) 0 10 [] ⟨true, none⟩
    ∧ (calcTrigger (fun a b => a * b) 0 10 [] ⟨false, none⟩).1.lock = false := by
  obtain ⟨h1, h2, h3⟩ :=
    C9_single_flight (fun a b => a * b) 0 10 [] ⟨true, none⟩ rfl
  exact ⟨h1, h2 [⟨1, 0, 100, 22, 100⟩], h3 ⟨false, none⟩ [] rfl⟩

/-- `IMPORT_DUTY_RATE = 0.06`. -/
def IMPORT_DUTY_RATE : ℚ := 6 / 100

/-- `LOCAL_CHARGES_RATE = 0.015`. -/
def LOCAL_CHARGES_RATE : ℚ := 15 / 1000

/-- The widget's `computeBreakdown`. -/
structure Breakdown where
  base : ℚ
  importDuty : ℚ
  localCharges : ℚ
  total : ℚ
deriving DecidableEq

def computeBreakdown (base : ℚ) : Breakdown :=
  { base := base
    importDuty := base * IMPORT_DUTY_RATE
    localCharges := base * LOCAL_CHARGES_RATE
    total := base * (1 + IMPORT_DUTY_RATE + LOCAL_CHARGES_RATE) }

/-- The widget's static fallback 24K price. -/
def fallback24K : ℚ := 7200

/-- The externally visible effect of one widget fetch: the price handed to
`onPriceUpdate` for portfolio valuation, and the base 24K price inserted
into `gold_price_history` (the fallback path inserts nothing). The
`purity` display toggle is taken as an argument to record that it plays no
role in this effect. -/
structure WidgetEffect where
  passedPrice24K : ℚ
  insertedBase24K : Option ℚ
deriving DecidableEq

def widgetFetchEffect (fetched : Option GoldPriceData) (purity : ℕ) :
    WidgetEffect :=
  match fetched with
  | some data =>
    { passedPrice24K := (computeBreakdown data.priceInrPerGram24K).total
      insertedBase24K := some data.priceInrPerGram24K }
  | none =>
    { passedPrice24K := (computeBreakdown fallback24K).total
      insertedBase24K := none }

theorem computeBreakdown_total (base : ℚ) :
    (computeBreakdown base).total = base * (43 / 40) := by
  have h : (1 : ℚ) + IMPORT_DUTY_RATE + LOCAL_CHARGES_RATE = 43 / 40 := by
    norm_num [IMPORT_DUTY_RATE, LOCAL_CHARGES_RATE]
  simp only [computeBreakdown, h]

/-- Claim C10: whatever price the widget obtains — a successful fetch or
the static fallback — the price passed onward via `onPriceUpdate` is the
base 24K spot price times exactly `43 / 40 = 1.075` (1 + 6% import duty +
1.5% local charges), independently of the purity selected for display;
on the live path the unmarked base 24K price is what gets inserted into
the price history (the fallback path inserts nothing), so live valuation
and the stored historical series differ by the constant 7.5% factor. -/
theorem C10_markup_factor (fetched : Option GoldPriceData)
    (purity1 purity2 : ℕ) :
    widgetFetchEffect fetched purity1 = widgetFetchEffect fetched purity2
    ∧ (∀ data : GoldPriceData, fetched = some data →
        (widgetFetchEffect fetched purity1).passedPrice24K
            = data.priceInrPerGram24K * (43 / 40)
        ∧ (widgetFetchEffect fetched purity1).insertedBase24K
            = some data.priceInrPerGram24K)
    ∧ (fetched = none →
        (widgetFetchEffect fetched purity1).passedPrice24K
            = fallback24K * (43 / 40)
        ∧ (widgetFetchEffect fetched purity1).insertedBase24K = none)
    ∧ ∀ base : ℚ, (computeBreakdown base).total = base * (43 / 40) := by
  refine ⟨?_, ?_, ?_, computeBreakdown_total⟩
  · cases fetched <;> rfl
  · rintro data rfl
    exact ⟨computeBreakdown_total data.priceInrPerGram24K, rfl⟩
  · rintro rfl
    exact ⟨computeBreakdown_total fallback24K, rfl⟩

theorem C10_witness :
    widgetFetchEffect (some ⟨9000, 8250, "GoldAPI INR endpoint"⟩) 24
        = widgetFetchEffect (some ⟨9000, 8250, "GoldAPI INR endpoint"⟩) 22
    ∧ (widgetFetchEffect (some ⟨9000, 8250, "GoldAPI INR endpoint"⟩) 24).passedPrice24K
        = 9000 * (43 / 40)
    ∧ (widgetFetchEffect (some ⟨9000, 8250, "GoldAPI INR endpoint"⟩) 24).insertedBase24K
        = some 9000
    ∧ (widgetFetchEffect none 24).passedPrice24K = fallback24K * (43 / 40) := by
  obtain ⟨h1, h2, _, _⟩ :=
    C10_markup_factor (some ⟨9000, 8250, "GoldAPI INR endpoint"⟩) 24 22
  obtain ⟨_, _, h3, _⟩ := C10_markup_factor (none : Option GoldPriceData) 24 22
  obtain ⟨h2a, h2b⟩ := h2 ⟨9000, 8250, "GoldAPI INR endpoint"⟩ rfl
  obtain ⟨h3a, _⟩ := h3 rfl
  exact ⟨h1, h2a, h2b, h3a⟩

end GoldAdvisor
